import Mathlib

/-!
Verification development for the scientific-paper summarizer module
(`paper_summarizer.py`).

The module's core pipeline is pure text processing: section detection by
ordered heading patterns, sentence splitting, TF-IDF scoring, extractive
summarization, title estimation and keyword extraction.  We embed those
functions shallowly:

* Python strings are Lean `String`s; where the code works line by line we
  represent the joined text of a section by its list of lines (the source
  stores `"\n".join(lines[a:b])`, and the lines of a split contain no
  newline, so the two representations are in bijection).
* The heading regexes of `SECTION_PATTERNS` all have the shape
  `(?i)^(?:\d+\.?\s*)?BODY\b`.  Each is embedded as an explicit matcher
  `List Char → Option (List Char)` (consume a prefix, return the rest).
  Case-insensitivity, the character classes `\d`, `\s`, `\w` and `\b` are
  modelled at ASCII level, matching the behavior of the Python code on
  ASCII input.  The only regex backtracking these patterns can perform is
  at the two optional groups, which the matchers reproduce with an
  explicit alternative; the greedy character-class repetitions
  (`\d+`, `\s+`, `\s*`) are always followed by a literal letter, a dot
  test or a word-boundary test, so maximal munch is exact.
* Python floats are idealized as real numbers, `math.log` as `Real.log`.
* Python `dict`s built by comprehensions are association lists in key
  insertion order; `dict.get(k, 0)` is `alookup` with a default.
-/

/-! ### Character classes (ASCII-level models of `\d`, `\s`, `\w`, `[a-zA-Z]`) -/

/-- Class `\d`: an ASCII decimal digit. -/
def isDigitChar (c : Char) : Bool := 48 ≤ c.toNat && c.toNat ≤ 57

/-- Class `\s`: ASCII whitespace (space, tab, newline, vertical tab, form feed,
carriage return), as used by `str.strip` and the `\s` class. -/
def isSpaceChar (c : Char) : Bool := (9 ≤ c.toNat && c.toNat ≤ 13) || c.toNat = 32

/-- Class `\w`: a word character `[a-zA-Z0-9_]`, used for the `\b` boundary test. -/
def isWordChar (c : Char) : Bool :=
  (48 ≤ c.toNat && c.toNat ≤ 57) || (65 ≤ c.toNat && c.toNat ≤ 90) ||
  (97 ≤ c.toNat && c.toNat ≤ 122) || c.toNat = 95

/-- Class `[a-zA-Z]`: an ASCII letter. -/
def isAsciiAlpha (c : Char) : Bool :=
  (65 ≤ c.toNat && c.toNat ≤ 90) || (97 ≤ c.toNat && c.toNat ≤ 122)

/-- The code point of `c` lowered: uppercase ASCII letters are shifted to
lowercase, everything else is untouched.  Used to compare an input
character case-insensitively against a lowercase pattern character. -/
def lowerNat (c : Char) : ℕ :=
  if 65 ≤ c.toNat ∧ c.toNat ≤ 90 then c.toNat + 32 else c.toNat

/-! ### `str.strip` and `str.split("\n")` -/

/-- Python `str.strip()`: remove leading and trailing whitespace. -/
def stripChars (cs : List Char) : List Char :=
  ((cs.dropWhile isSpaceChar).reverse.dropWhile isSpaceChar).reverse

/-- Python `str.strip()` on a `String`. -/
def stripStr (s : String) : String := String.mk (stripChars s.data)

/-- Python `raw_text.split("\n")` on the character list: split at every
newline.  `[] ↦ [[]]`, and a trailing newline yields a trailing empty
line, exactly as in Python. -/
def splitNewlines : List Char → List (List Char)
  | [] => [[]]
  | c :: rest =>
    if c = '\n' then [] :: splitNewlines rest
    else
      match splitNewlines rest with
      | [] => [[c]]
      | l :: ls => (c :: l) :: ls

/-- Python `raw_text.split("\n")` producing `String` lines. -/
def splitLinesStr (raw : String) : List String :=
  (splitNewlines raw.data).map (fun l => String.mk l)

/-- Python `"\n".join(lines)`. -/
def joinLines (ls : List String) : String := String.intercalate "\n" ls

/-! ### Matchers for the heading regexes

A matcher consumes a prefix of the input and returns the unconsumed
suffix; `none` means the pattern does not match at the start of the
input (the semantics of `re.match`). -/

/-- The type of a regex matcher anchored at the start of the input. -/
def Matcher : Type := List Char → Option (List Char)

/-- Matcher for a literal word given in lowercase, matched
case-insensitively (the `(?i)` flag). -/
def litGo : List Char → List Char → Option (List Char)
  | [], cs => some cs
  | _ :: _, [] => none
  | p :: ps, c :: cs => if lowerNat c = p.toNat then litGo ps cs else none

/-- Matcher for the literal `s` (given lowercase), case-insensitive. -/
def mLit (s : String) (k : Matcher) : Matcher :=
  fun cs => (litGo s.data cs).bind k

/-- The trivial continuation: consume nothing more. -/
def mId : Matcher := fun cs => some cs

/-- Repetition `\s+` followed by `k`.  In every pattern of the list, `\s+` is
followed by a literal letter, so maximal munch is exactly the regex
semantics. -/
def mWS1 (k : Matcher) : Matcher := fun cs =>
  match cs with
  | c :: rest => if isSpaceChar c then k (rest.dropWhile isSpaceChar) else none
  | [] => none

/-- Boundary `\b` after a keyword: every keyword ends in a letter, so the boundary
holds iff the next character is not a word character (or the input
ends). -/
def mWB : Matcher := fun cs =>
  match cs with
  | [] => some []
  | c :: _ => if isWordChar c then none else some cs

/-- Optional `c?` (an optional single letter, case-insensitive) followed by `k`,
with the regex's greedy backtracking: first try consuming `c`, then try
not consuming it. -/
def mOptChar (c : Char) (k : Matcher) : Matcher := fun cs =>
  match cs with
  | d :: rest => if lowerNat d = c.toNat then (k rest) <|> (k cs) else k cs
  | [] => k []

/-- Group `(?:m)?` followed by `k`, with backtracking: first try `m` then `k`,
otherwise `k` alone. -/
def mOptSeq (m : Matcher) (k : Matcher) : Matcher :=
  fun cs => ((m cs).bind k) <|> k cs

/-- The optional numeral prefix `\d+\.?\s*` of every heading pattern
(the body of the optional group).  `\d+` and `\s*` are matched by
maximal munch and `\.?` consumes a dot when present; this is exact
because every pattern body starts with a letter. -/
def mNumPre : Matcher := fun cs =>
  match cs with
  | c :: rest =>
    if isDigitChar c then
      let cs1 := rest.dropWhile isDigitChar
      let cs2 := match cs1 with
        | '.' :: r => r
        | _ => cs1
      some (cs2.dropWhile isSpaceChar)
    else none
  | [] => none

/-- Shape `^(?:\d+\.?\s*)?BODY`: the shared shape of all heading patterns. -/
def mkHeadPat (body : Matcher) : Matcher :=
  fun cs => ((mNumPre cs).bind body) <|> body cs

/-! The seventeen pattern bodies, in source order. -/

/-- Body `abstract\b` -/
def bodyAbstract : Matcher := mLit "abstract" mWB
/-- Body `introduction\b` -/
def bodyIntroduction : Matcher := mLit "introduction" mWB
/-- Body `background\b` -/
def bodyBackground : Matcher := mLit "background" mWB
/-- Body `(?:materials?\s+and\s+)?methods?\b` -/
def bodyMethods : Matcher :=
  mOptSeq (mLit "material" (mOptChar 's' (mWS1 (mLit "and" (mWS1 mId)))))
    (mLit "method" (mOptChar 's' mWB))
/-- Body `experimental\b` -/
def bodyExperimental : Matcher := mLit "experimental" mWB
/-- Body `results?\b` -/
def bodyResults : Matcher := mLit "result" (mOptChar 's' mWB)
/-- Body `results?\s+and\s+discussion\b` -/
def bodyResultsAndDiscussion : Matcher :=
  mLit "result" (mOptChar 's' (mWS1 (mLit "and" (mWS1 (mLit "discussion" mWB)))))
/-- Body `discussion\b` -/
def bodyDiscussion : Matcher := mLit "discussion" mWB
/-- Body `conclusions?\b` -/
def bodyConclusion : Matcher := mLit "conclusion" (mOptChar 's' mWB)
/-- Body `summary\b` -/
def bodySummary : Matcher := mLit "summary" mWB
/-- Body `acknowledg[e]?ments?\b` -/
def bodyAcknowledgements : Matcher :=
  mLit "acknowledg" (mOptChar 'e' (mLit "ment" (mOptChar 's' mWB)))
/-- Body `references?\b` -/
def bodyReferences : Matcher := mLit "reference" (mOptChar 's' mWB)
/-- Body `supplementary\b` -/
def bodySupplementary : Matcher := mLit "supplementary" mWB
/-- Body `funding\b` -/
def bodyFunding : Matcher := mLit "funding" mWB
/-- Body `author\s+contributions?\b` -/
def bodyAuthorContributions : Matcher :=
  mLit "author" (mWS1 (mLit "contribution" (mOptChar 's' mWB)))
/-- Body `competing\s+interests?\b` -/
def bodyCompetingInterests : Matcher :=
  mLit "competing" (mWS1 (mLit "interest" (mOptChar 's' mWB)))
/-- Body `data\s+availability\b` -/
def bodyDataAvailability : Matcher := mLit "data" (mWS1 (mLit "availability" mWB))

/-- The ordered pattern table `SECTION_PATTERNS`, in the exact source
order (note: the generic `results?` entry precedes the
`results?\s+and\s+discussion` entry, as in the source). -/
def SECTION_PATTERNS : List (Matcher × String) :=
  [ (mkHeadPat bodyAbstract, "Abstract"),
    (mkHeadPat bodyIntroduction, "Introduction"),
    (mkHeadPat bodyBackground, "Background"),
    (mkHeadPat bodyMethods, "Methods"),
    (mkHeadPat bodyExperimental, "Methods"),
    (mkHeadPat bodyResults, "Results"),
    (mkHeadPat bodyResultsAndDiscussion, "Results and Discussion"),
    (mkHeadPat bodyDiscussion, "Discussion"),
    (mkHeadPat bodyConclusion, "Conclusion"),
    (mkHeadPat bodySummary, "Summary"),
    (mkHeadPat bodyAcknowledgements, "Acknowledgements"),
    (mkHeadPat bodyReferences, "References"),
    (mkHeadPat bodySupplementary, "Supplementary"),
    (mkHeadPat bodyFunding, "Funding"),
    (mkHeadPat bodyAuthorContributions, "Author Contributions"),
    (mkHeadPat bodyCompetingInterests, "Competing Interests"),
    (mkHeadPat bodyDataAvailability, "Data Availability") ]

/-- The first-match-wins scan of a stripped line over `SECTION_PATTERNS`
(the inner `for pattern, section_name in SECTION_PATTERNS` loop with its
`break`): the canonical name of the first pattern that matches, if any. -/
def firstPatternName (line : List Char) : Option String :=
  SECTION_PATTERNS.findSome? (fun p => if (p.1 line).isSome then some p.2 else none)

example : firstPatternName "Abstract".data = some "Abstract" := by decide
example : firstPatternName "2. Methods".data = some "Methods" := by decide
example : firstPatternName "Results and Discussion".data = some "Results" := by decide
example : firstPatternName "Materials and Methods".data = some "Methods" := by decide
example : firstPatternName "A general title".data = none := by decide
example : firstPatternName "References".data = some "References" := by decide

/-! ### `_split_sentences` -/

/-- One pass of `re.sub(runs-of-p, r, text)`: every maximal run of
characters satisfying `p` is replaced by the single character `r`.  The
boolean argument records whether the previous character was part of a
run. -/
def collapseAux (p : Char → Bool) (r : Char) : Bool → List Char → List Char
  | _, [] => []
  | inRun, c :: rest =>
    if p c then
      if inRun then collapseAux p r true rest
      else r :: collapseAux p r true rest
    else c :: collapseAux p r false rest

/-- Helper of the sentence splitter: prepend a character to the first
fragment. -/
def consFirst (c : Char) : List (List Char) → List (List Char)
  | [] => [[c]]
  | l :: ls => (c :: l) :: ls

/-- Is this (optional) character one of `.`, `!`, `?`. -/
def isSentEnd : Option Char → Bool
  | some c => c = '.' || c = '!' || c = '?'
  | none => false

/-- Is the head of the list an uppercase ASCII letter (the `(?=[A-Z])`
lookahead). -/
def headIsUpper : List Char → Bool
  | c :: _ => 65 ≤ c.toNat && c.toNat ≤ 90
  | [] => false

/-- Model of `re.split(r"(?<=[.!?])\s+(?=[A-Z])", text)` on text whose whitespace
runs have already been collapsed to single spaces (which is how the
source applies it): split at a space preceded by `.`/`!`/`?` and
followed by an uppercase letter, consuming the space. -/
def splitSentsAux : Option Char → List Char → List (List Char)
  | _, [] => [[]]
  | prev, c :: rest =>
    if c = ' ' && isSentEnd prev && headIsUpper rest then
      [] :: splitSentsAux (some c) rest
    else consFirst c (splitSentsAux (some c) rest)

/-- Function `_split_sentences`: collapse newline runs to spaces, collapse
whitespace runs to spaces, strip; split at sentence boundaries; keep the
stripped fragments longer than 10 characters. -/
def split_sentences (text : String) : List String :=
  let normalized :=
    stripChars (collapseAux isSpaceChar ' ' false
      (collapseAux (fun c => c = '\n') ' ' false text.data))
  let sentences := splitSentsAux none normalized
  (sentences.filter (fun s => 10 < (stripChars s).length)).map
    (fun s => String.mk (stripChars s))

example :
    split_sentences "We did things. Then we did more things.\nAnd e.g. nothing else." =
      ["We did things.", "Then we did more things.", "And e.g. nothing else."] := by decide
example : split_sentences "" = [] := by decide
example : split_sentences "short. Words" = [] := by decide

/-! ### `_tokenize` and the stopword set -/

/-- The frozen stopword set `STOP_WORDS` of the source, in source
order. -/
def STOP_WORDS : List String :=
  [ "a", "an", "the", "and", "or", "but", "in", "on", "at", "to", "for",
    "of", "with", "by", "from", "is", "are", "was", "were", "be", "been",
    "being", "have", "has", "had", "do", "does", "did", "will", "would",
    "could", "should", "may", "might", "shall", "can", "this", "that",
    "these", "those", "it", "its", "not", "no", "nor", "as", "if", "than",
    "so", "such", "when", "where", "which", "who", "whom", "what", "how",
    "all", "each", "both", "more", "most", "other", "some", "any", "into",
    "through", "during", "before", "after", "above", "below", "between",
    "also", "very", "often", "however", "further", "then", "here", "there",
    "about", "up", "out", "over", "under", "again", "once", "our", "we",
    "they", "their", "them", "he", "she", "his", "her", "you", "your" ]

/-- The scanning loop of `re.findall(r"[a-zA-Z]{2,}", ·)`: walk the
characters keeping the current letter run (reversed) in the
accumulator, emitting each maximal run when it ends. -/
def runsAux : Option (List Char) → List Char → List (List Char)
  | none, [] => []
  | some run, [] => [run.reverse]
  | none, c :: rest =>
    if isAsciiAlpha c then runsAux (some [c]) rest else runsAux none rest
  | some run, c :: rest =>
    if isAsciiAlpha c then runsAux (some (c :: run)) rest
    else run.reverse :: runsAux none rest

/-- Function `_tokenize`: lowercase, take the maximal ASCII-letter runs of length
at least 2 (the regex `[a-zA-Z]{2,}` under `findall`), drop
stopwords. -/
def tokenize (text : String) : List String :=
  let words := ((runsAux none (text.data.map Char.toLower)).filter
    (fun r => 2 ≤ r.length)).map (fun r => String.mk r)
  words.filter (fun w => !(STOP_WORDS.contains w))

example : tokenize "the quick analysis of results" = ["quick", "analysis", "results"] := by decide
example : tokenize "" = [] := by decide
example : tokenize "A 12bc x!" = ["bc"] := by decide

/-! ### Data structures -/

/-- The dataclass `PaperSection`.  `text` is the list of lines of the
section (the source stores their `"\n"`-join). -/
structure PaperSection where
  name : String
  text : List String
  sentences : List String
  summary_sentences : List String
deriving DecidableEq

instance : Inhabited PaperSection := ⟨⟨"", [], [], []⟩⟩

/-- The dataclass `PaperInfo`. -/
structure PaperInfo where
  file_path : String
  title : String
  total_pages : ℕ
  raw_text : String
  sections : List PaperSection
  keywords : List String

/-! ### `_detect_sections` -/

/-- The per-line heading test of `_detect_sections`: strip the line; an
empty stripped line is skipped (`continue`), otherwise scan the ordered
pattern list first-match-wins. -/
def headingOf (line : String) : Option String :=
  let stripped := stripStr line
  if stripped = "" then none else firstPatternName stripped.data

/-- The `for i, line in enumerate(lines)` loop collecting
`(line_index, canonical_name)` section breaks, starting at index `i`. -/
def sectionBreaksAux (i : ℕ) : List String → List (ℕ × String)
  | [] => []
  | line :: rest =>
    match headingOf line with
    | some name => (i, name) :: sectionBreaksAux (i + 1) rest
    | none => sectionBreaksAux (i + 1) rest

/-- All `(line_index, canonical_name)` breaks of the text. -/
def sectionBreaks (lines : List String) : List (ℕ × String) :=
  sectionBreaksAux 0 lines

/-- Python `lines[a:b]`. -/
def sliceLines (lines : List String) (a b : ℕ) : List String :=
  (lines.take b).drop a

/-- The section-building loop of `_detect_sections`: each break opens a
section running to the next break (the last one to the end of the
text). -/
def buildSections (lines : List String) : List (ℕ × String) → List PaperSection
  | [] => []
  | (line_no, name) :: rest =>
    let end_line := match rest with
      | [] => lines.length
      | (k2, _) :: _ => k2
    let slice := sliceLines lines line_no end_line
    { name := name, text := slice,
      sentences := split_sentences (joinLines slice),
      summary_sentences := [] } :: buildSections lines rest

/-- Function `_detect_sections`: split into lines, collect breaks; with no breaks
the whole text is one `"Full Text"` section, otherwise slice between
consecutive breaks. -/
def detect_sections (raw_text : String) : List PaperSection :=
  let lines := splitLinesStr raw_text
  match sectionBreaks lines with
  | [] =>
    [{ name := "Full Text", text := lines,
       sentences := split_sentences (joinLines lines),
       summary_sentences := [] }]
  | _ :: _ => buildSections lines (sectionBreaks lines)

example :
    (detect_sections "Title\nAbstract\nWe study things in this work.\nReferences\nSmith 2020.").map
      (fun s => (s.name, s.text)) =
      [("Abstract", ["Abstract", "We study things in this work."]),
       ("References", ["References", "Smith 2020."])] := by decide
example :
    (detect_sections "no headings at all here").map (fun s => s.name) = ["Full Text"] := by
  decide

/-! ### `_estimate_title` -/

/-- The per-line test
`any(re.match(pat, line) for pat, _ in SECTION_PATTERNS)` of
`_estimate_title`. -/
def isHeadingLine (line : String) : Bool := (firstPatternName line.data).isSome

/-- The candidate-collecting loop of `_estimate_title`: walk the
non-empty stripped lines, breaking at the first heading-like line;
append each line longer than 10 characters to the accumulator, breaking
once three candidates are collected. -/
def collectCands (acc : List String) : List String → List String
  | [] => acc
  | line :: rest =>
    if isHeadingLine line then acc
    else
      let acc2 := if 10 < line.length then acc ++ [line] else acc
      if 3 ≤ acc2.length then acc2 else collectCands acc2 rest

/-- Function `_estimate_title`: among the first 15 raw lines, keep the non-empty
stripped ones; return the first candidate, else the first such line,
else the unknown-title sentinel. -/
def estimate_title (raw_text : String) : String :=
  let lines := (((splitLinesStr raw_text).take 15).map stripStr).filter (fun l => l ≠ "")
  match lines with
  | [] => "(タイトル不明)"
  | l0 :: _ =>
    match collectCands [] lines with
    | c :: _ => c
    | [] => l0

example :
    estimate_title "A Study of Interesting Things\nJ. Doe, R. Roe\nAbstract\nWe study." =
      "A Study of Interesting Things" := by decide
example : estimate_title "" = "(タイトル不明)" := by decide
example : estimate_title "short\ntiny" = "short" := by decide

/-! ### TF-IDF engine

Python `dict`s are association lists with keys in insertion order;
`d.get(k, default)` is `alookup` + `Option.getD`; float arithmetic is
idealized over `ℝ` with `math.log = Real.log`. -/

/-- Lookup in an association list (first matching key wins, like a
Python `dict` whose keys are unique). -/
def alookup {α : Type} : List (String × α) → String → Option α
  | [], _ => none
  | (k, v) :: rest, w => if w = k then some v else alookup rest w

/-- Python `d.get(w, d0)`. -/
def alookupD {α : Type} (l : List (String × α)) (w : String) (d0 : α) : α :=
  (alookup l w).getD d0

/-- The distinct elements of a list, first occurrence first: the key
order of `collections.Counter` (insertion order). -/
def dedupAux (seen : List String) : List String → List String
  | [] => []
  | w :: ws => if w ∈ seen then dedupAux seen ws else w :: dedupAux (seen ++ [w]) ws

/-- Distinct elements in first-occurrence order. -/
def dedupFirst (l : List String) : List String := dedupAux [] l

/-- Function `_compute_tf`: term frequency `count/total` per distinct word, empty
mapping for an empty word list. -/
noncomputable def compute_tf (words : List String) : List (String × ℝ) :=
  if words.length = 0 then []
  else (dedupFirst words).map
    (fun w => (w, (words.count w : ℝ) / (words.length : ℝ)))

/-- The document frequency of `w`: how many documents contain it at
least once (set semantics). -/
def docFreq (documents : List (List String)) (w : String) : ℕ :=
  documents.countP (fun d => decide (w ∈ d))

/-- Function `_compute_idf`: `ln(n_docs / (1 + df(w)))` for every word observed
in the corpus; the empty corpus yields the empty mapping. -/
noncomputable def compute_idf (documents : List (List String)) : List (String × ℝ) :=
  if documents.length = 0 then []
  else (dedupFirst documents.flatten).map
    (fun w => (w, Real.log ((documents.length : ℝ) / (1 + (docFreq documents w : ℝ)))))

/-- The per-sentence score `sum(tf.get(w, 0) * idf.get(w, 0) for w in tf)`. -/
noncomputable def sentenceScore (words : List String) (idf : List (String × ℝ)) : ℝ :=
  let tf := compute_tf words
  (((tf.map Prod.fst)).map (fun w => alookupD tf w 0 * alookupD idf w 0)).sum

/-- The scoring loop of `_score_sentences`, carrying the enumeration
index: sentences with no tokens are skipped (`continue`), the others
yield `(score, index, sentence)` triples. -/
noncomputable def scoredAux (idf : List (String × ℝ)) : ℕ → List String → List (ℝ × ℕ × String)
  | _, [] => []
  | i, sent :: rest =>
    if tokenize sent = [] then scoredAux idf (i + 1) rest
    else (sentenceScore (tokenize sent) idf, i, sent) :: scoredAux idf (i + 1) rest

/-- Python `scored.sort(key=lambda x: -x[0])`: a stable sort descending by
score (Python's `list.sort` is stable). -/
noncomputable def sortByScoreDesc (l : List (ℝ × ℕ × String)) : List (ℝ × ℕ × String) :=
  l.mergeSort (fun x y => decide (y.1 ≤ x.1))

/-- Function `_score_sentences`: score each sentence, return the triples sorted
descending by score. -/
noncomputable def score_sentences (sentences : List String) (idf : List (String × ℝ)) :
    List (ℝ × ℕ × String) :=
  sortByScoreDesc (scoredAux idf 0 sentences)

/-- Python `top_n.sort(key=lambda x: x[1])`: stable sort ascending by original
sentence index. -/
noncomputable def sortByIndex (l : List (ℝ × ℕ × String)) : List (ℝ × ℕ × String) :=
  l.mergeSort (fun x y => decide (x.2.1 ≤ y.2.1))

/-- Function `summarize_section`: empty for a section with no sentences;
otherwise take the `max_sentences` best-scoring triples, re-sort them by
original index and return their sentences. -/
noncomputable def summarize_section (sec : PaperSection) (idf : List (String × ℝ))
    (max_sentences : ℕ) : List String :=
  if sec.sentences = [] then []
  else
    (sortByIndex ((score_sentences sec.sentences idf).take max_sentences)).map
      (fun x => x.2.2)

/-! ### `extract_keywords` -/

/-- Function `extract_keywords`: build the sentence corpus and its IDF, a
whole-text TF, multiply, sort descending by score (stable) and return
the first `top_n` terms. -/
noncomputable def extract_keywords (raw_text : String) (top_n : ℕ) : List String :=
  let sentences := split_sentences raw_text
  let docs := sentences.map tokenize
  let idf := compute_idf docs
  let all_words := tokenize raw_text
  let tf := compute_tf all_words
  let tfidf_scores := (tf.map Prod.fst).map
    (fun w => (w, alookupD tf w 0 * alookupD idf w 0))
  let sorted_words := tfidf_scores.mergeSort (fun x y => decide (y.2 ≤ x.2))
  (sorted_words.take top_n).map Prod.fst

/-! ### `analyze_paper` -/

/-- The skip set `SKIP_SECTIONS` (a Python `set`; only membership is
ever used, so a list model is adequate). -/
def SKIP_SECTIONS : List String :=
  [ "References", "Acknowledgements", "Supplementary",
    "Funding", "Author Contributions", "Competing Interests",
    "Data Availability" ]

/-- Function `analyze_paper`, with the PDF text-extraction step (file I/O,
delegated by the source to `extract_text_from_pdf` / PyPDF2) replaced by
taking its results `raw_text` and `total_pages` directly as inputs.
Everything downstream of extraction is modelled: title estimation,
section detection, paper-wide IDF, per-section summaries for sections
not in the skip set, and keywords. -/
noncomputable def analyze_paper (pdf_path : String) (raw_text : String) (total_pages : ℕ)
    (sentences_per_section : ℕ) (num_keywords : ℕ) : PaperInfo :=
  let title := estimate_title raw_text
  let sections := detect_sections raw_text
  let all_sentences := (sections.map (fun sec => sec.sentences)).flatten
  let all_docs := all_sentences.map tokenize
  let idf := compute_idf all_docs
  let sections2 := sections.map (fun sec =>
    if sec.name ∈ SKIP_SECTIONS then sec
    else { sec with summary_sentences := summarize_section sec idf sentences_per_section })
  let keywords := extract_keywords raw_text num_keywords
  { file_path := pdf_path, title := title, total_pages := total_pages,
    raw_text := raw_text, sections := sections2, keywords := keywords }

/-!
## Theorems

### C6 — tokenizer characterization

An independent construction of the maximal letter runs: split the
character list at every non-letter (each non-letter character is a
separator, so consecutive separators yield empty segments), then the
non-empty segments are exactly the maximal runs.
-/

/-- Split a character list at every non-letter character. -/
def splitNonAlpha : List Char → List (List Char)
  | [] => [[]]
  | c :: rest =>
    if isAsciiAlpha c then consFirst c (splitNonAlpha rest)
    else [] :: splitNonAlpha rest

lemma splitNonAlpha_ne_nil (cs : List Char) : splitNonAlpha cs ≠ [] := by
  cases cs with
  | nil => simp [splitNonAlpha]
  | cons c rest =>
    simp only [splitNonAlpha]
    split
    · cases h : splitNonAlpha rest <;> simp [consFirst]
    · simp

/-- The scanner `runsAux` computes exactly the non-empty segments of
`splitNonAlpha`, i.e. the maximal letter runs. -/
lemma runsAux_eq_splitNonAlpha (cs : List Char) :
    (runsAux none cs = (splitNonAlpha cs).filter (fun l => !l.isEmpty)) ∧
    (∀ acc seg rest, splitNonAlpha cs = seg :: rest →
      runsAux (some acc) cs = (acc.reverse ++ seg) :: rest.filter (fun l => !l.isEmpty)) := by
  induction cs with
  | nil =>
    constructor
    · simp [runsAux, splitNonAlpha]
    · intro acc seg rest h
      simp only [splitNonAlpha] at h
      obtain ⟨rfl, rfl⟩ := by simpa using h
      simp [runsAux]
  | cons c cs ih =>
    obtain ⟨ih1, ih2⟩ := ih
    by_cases hc : isAsciiAlpha c
    · obtain ⟨seg, rest, hsr⟩ : ∃ seg rest, splitNonAlpha cs = seg :: rest := by
        cases h : splitNonAlpha cs with
        | nil => exact absurd h (splitNonAlpha_ne_nil cs)
        | cons a b => exact ⟨a, b, rfl⟩
      constructor
      · simp only [runsAux, hc, if_pos, splitNonAlpha, hsr, consFirst]
        rw [ih2 [c] seg rest hsr]
        simp
      · intro acc seg' rest' h
        simp only [splitNonAlpha, hc, if_pos, hsr, consFirst] at h
        injection h with h1 h2
        subst h1
        subst h2
        simp only [runsAux, hc, if_pos]
        rw [ih2 (c :: acc) seg rest hsr]
        simp
    · constructor
      · simp only [runsAux, hc, if_neg, Bool.false_eq_true, not_false_iff, splitNonAlpha]
        rw [ih1]
        simp
      · intro acc seg rest h
        simp only [splitNonAlpha, hc, if_neg, Bool.false_eq_true, not_false_iff] at h
        injection h with h1 h2
        subst h1
        subst h2
        simp only [runsAux, hc, if_neg, Bool.false_eq_true, not_false_iff]
        rw [ih1]
        simp

/-- C6: for every input string, the tokenizer returns exactly the
maximal runs of 2 or more ASCII letters of the lowercased input, in
order of occurrence, with stopwords removed (digits, punctuation and
single letters discarded); in particular
`tokenize "the quick analysis of results" = ["quick", "analysis", "results"]`
and `tokenize "" = []`. -/
theorem claim_C6 :
    (∀ text : String,
      tokenize text =
        (((splitNonAlpha (text.data.map Char.toLower)).filter (fun r => 2 ≤ r.length)).map
          (fun r => String.mk r)).filter (fun w => !(STOP_WORDS.contains w)))
    ∧ tokenize "the quick analysis of results" = ["quick", "analysis", "results"]
    ∧ tokenize "" = [] := by
  refine ⟨fun text => ?_, by decide, by decide⟩
  have h := (runsAux_eq_splitNonAlpha (text.data.map Char.toLower)).1
  simp only [tokenize, h, List.filter_filter]
  congr 2
  apply List.filter_congr
  intro a _
  cases a with
  | nil => simp
  | cons x xs => simp [List.isEmpty]

/-! ### C9 / C10 — keyword extraction bounds and distinctness -/

lemma dedupAux_nodup (l : List String) :
    ∀ seen : List String, (dedupAux seen l).Nodup ∧ ∀ x ∈ dedupAux seen l, x ∉ seen := by
  induction l with
  | nil => intro seen; simp [dedupAux]
  | cons w ws ih =>
    intro seen
    by_cases hw : w ∈ seen
    · simpa [dedupAux, hw] using ih seen
    · obtain ⟨ihn, ihs⟩ := ih (seen ++ [w])
      refine ⟨?_, ?_⟩
      · simp only [dedupAux, hw, if_neg, not_false_iff, List.nodup_cons]
        refine ⟨fun hmem => ?_, ihn⟩
        exact ihs w hmem (by simp)
      · intro x hx
        simp only [dedupAux, hw, if_neg, not_false_iff, List.mem_cons] at hx
        rcases hx with rfl | hx
        · exact hw
        · intro hxs
          exact ihs x hx (by simp [hxs])

lemma dedupFirst_nodup (l : List String) : (dedupFirst l).Nodup :=
  (dedupAux_nodup l []).1

lemma compute_tf_keys (ws : List String) :
    (compute_tf ws).map Prod.fst = dedupFirst ws := by
  by_cases h : ws.length = 0
  · have : ws = [] := List.length_eq_zero.mp h
    subst this
    simp [compute_tf, dedupFirst, dedupAux]
  · simp only [compute_tf, h, if_neg, not_false_iff, List.map_map]
    rw [show (Prod.fst ∘ fun w : String => (w, ((ws.count w : ℝ)) / (ws.length : ℝ))) = id from
      funext fun w => rfl]
    exact List.map_id _

/-- C9: `extract_keywords` returns at most `top_n` terms and at most as
many terms as there are distinct non-stopword tokens in the text;
`top_n = 0` yields the empty list. -/
theorem claim_C9 (raw_text : String) (top_n : ℕ) :
    (extract_keywords raw_text top_n).length ≤ top_n
    ∧ (extract_keywords raw_text top_n).length ≤ (dedupFirst (tokenize raw_text)).length
    ∧ extract_keywords raw_text 0 = [] := by
  refine ⟨?_, ?_, by simp [extract_keywords]⟩
  · simp only [extract_keywords, List.length_map]
    exact List.length_take_le _ _
  · simp only [extract_keywords, List.length_map, List.length_take, List.length_mergeSort]
    rw [← compute_tf_keys (tokenize raw_text), List.length_map]
    exact Nat.min_le_right _ _

/-- C10: the keyword list returned by `extract_keywords` contains no
duplicate terms. -/
theorem claim_C10 (raw_text : String) (top_n : ℕ) :
    (extract_keywords raw_text top_n).Nodup := by
  simp only [extract_keywords]
  rw [List.map_take]
  apply List.Sublist.nodup (List.take_sublist _ _)
  rw [List.Perm.nodup_iff ((List.mergeSort_perm _ _).map Prod.fst)]
  rw [List.map_map]
  have : (Prod.fst ∘ fun w =>
      (w, alookupD (compute_tf (tokenize raw_text)) w 0 *
        alookupD (compute_idf ((split_sentences raw_text).map tokenize)) w 0)) = id := by
    funext w
    rfl
  rw [this, List.map_id, compute_tf_keys]
  exact dedupFirst_nodup _

/-! ### C7 — graceful degradation on empty input -/

lemma scoredAux_mem (l : List String) (idf : List (String × ℝ)) :
    ∀ (i : ℕ) (x : ℝ × ℕ × String), x ∈ scoredAux idf i l →
      i ≤ x.2.1 ∧ l[x.2.1 - i]? = some x.2.2 ∧ tokenize x.2.2 ≠ [] := by
  induction l with
  | nil => intro i x hx; simp [scoredAux] at hx
  | cons sent rest ih =>
    intro i x hx
    by_cases htok : tokenize sent = []
    · simp only [scoredAux, htok, if_pos] at hx
      obtain ⟨h1, h2, h3⟩ := ih (i + 1) x hx
      refine ⟨by omega, ?_, h3⟩
      have : x.2.1 - i = (x.2.1 - (i + 1)) + 1 := by omega
      rw [this]
      simpa using h2
    · simp only [scoredAux, htok, if_neg, not_false_iff, List.mem_cons] at hx
      rcases hx with rfl | hx
      · simp [htok]
      · obtain ⟨h1, h2, h3⟩ := ih (i + 1) x hx
        refine ⟨by omega, ?_, h3⟩
        have : x.2.1 - i = (x.2.1 - (i + 1)) + 1 := by omega
        rw [this]
        simpa using h2

/-- C7: every stage degrades gracefully on empty input: the TF of an
empty token sequence and the IDF of an empty corpus are the empty
mapping, and a sentence yielding zero tokens occurs at no rank of the
sentence ranking (it is excluded, not scored as zero). -/
theorem claim_C7 :
    compute_tf [] = []
    ∧ compute_idf [] = []
    ∧ ∀ (sentences : List String) (idf : List (String × ℝ)) (i : ℕ) (sent : String),
        sentences[i]? = some sent → tokenize sent = [] →
        (score_sentences sentences idf).countP (fun x => decide (x.2.1 = i)) = 0 := by
  refine ⟨by simp [compute_tf], by simp [compute_idf], ?_⟩
  intro sentences idf i sent hget htok
  rw [List.countP_eq_zero]
  intro x hx
  have hx' : x ∈ scoredAux idf 0 sentences :=
    (List.mergeSort_perm (scoredAux idf 0 sentences) _).subset hx
  obtain ⟨-, h2, h3⟩ := scoredAux_mem sentences idf 0 x hx'
  rw [Nat.sub_zero] at h2
  simp only [decide_eq_true_eq]
  intro heq
  rw [heq, hget] at h2
  exact h3 (by injection h2 with h2'; rw [← h2']; exact htok)

/-- Witness for C7 at a concrete ranking: the token-free sentence at
index 0 appears at no rank. -/
theorem claim_C7_witness :
    (score_sentences ["1234 !!!", "An informative sentence about analysis"] []).countP
      (fun x => decide (x.2.1 = 0)) = 0 :=
  claim_C7.2.2 ["1234 !!!", "An informative sentence about analysis"] [] 0 "1234 !!!"
    (by decide) (by decide)

/-! ### C3 — the IDF formula -/

lemma alookup_map_keys {α : Type} (keys : List String) (f : String → α) (w : String) :
    alookup (keys.map (fun k => (k, f k))) w = if w ∈ keys then some (f w) else none := by
  induction keys with
  | nil => simp [alookup]
  | cons k ks ih =>
    by_cases hk : w = k
    · subst hk
      simp [alookup]
    · simp [alookup, hk, ih]

lemma dedupAux_mem (l : List String) :
    ∀ (seen : List String) (w : String), w ∈ dedupAux seen l ↔ (w ∈ l ∧ w ∉ seen) := by
  induction l with
  | nil => intro seen w; simp [dedupAux]
  | cons v vs ih =>
    intro seen w
    by_cases hv : v ∈ seen
    · rw [show dedupAux seen (v :: vs) = dedupAux seen vs by simp [dedupAux, hv], ih]
      constructor
      · rintro ⟨h1, h2⟩
        exact ⟨List.mem_cons_of_mem _ h1, h2⟩
      · rintro ⟨h1, h2⟩
        rcases List.mem_cons.mp h1 with rfl | h1
        · exact absurd hv h2
        · exact ⟨h1, h2⟩
    · rw [show dedupAux seen (v :: vs) = v :: dedupAux (seen ++ [v]) vs by
        simp [dedupAux, hv]]
      simp only [List.mem_cons, ih, List.mem_append, List.mem_singleton]
      constructor
      · rintro (rfl | ⟨h1, h2⟩)
        · exact ⟨Or.inl rfl, hv⟩
        · exact ⟨Or.inr h1, fun hs => h2 (Or.inl hs)⟩
      · rintro ⟨rfl | h1, h2⟩
        · exact Or.inl rfl
        · by_cases hw : w = v
          · exact Or.inl hw
          · exact Or.inr ⟨h1, by tauto⟩

lemma dedupFirst_mem (l : List String) (w : String) : w ∈ dedupFirst l ↔ w ∈ l := by
  rw [dedupFirst, dedupAux_mem]
  simp

/-- C3: for a non-empty corpus, the IDF mapping assigns each observed
term `t` the value `ln(N / (1 + df(t)))` with `df` counting documents by
set semantics; a term occurring in every document gets a non-positive
IDF, and a term occurring in no document is absent from the mapping. -/
theorem claim_C3 (documents : List (List String)) (hN : documents ≠ []) (w : String) :
    ((∃ d ∈ documents, w ∈ d) →
      alookup (compute_idf documents) w =
        some (Real.log ((documents.length : ℝ) / (1 + (docFreq documents w : ℝ)))))
    ∧ ((∀ d ∈ documents, w ∈ d) → alookupD (compute_idf documents) w 0 ≤ 0)
    ∧ ((∀ d ∈ documents, w ∉ d) → alookup (compute_idf documents) w = none) := by
  have hlen : ¬documents.length = 0 := fun h => hN (List.length_eq_zero.mp h)
  have hidf : compute_idf documents =
      (dedupFirst documents.flatten).map (fun t =>
        (t, Real.log ((documents.length : ℝ) / (1 + (docFreq documents t : ℝ))))) := by
    simp [compute_idf, hlen]
  have hform := alookup_map_keys (dedupFirst documents.flatten)
    (fun t => Real.log ((documents.length : ℝ) / (1 + (docFreq documents t : ℝ)))) w
  have hmain : (∃ d ∈ documents, w ∈ d) →
      alookup (compute_idf documents) w =
        some (Real.log ((documents.length : ℝ) / (1 + (docFreq documents w : ℝ)))) := by
    intro hex
    rw [hidf, hform, if_pos ((dedupFirst_mem _ _).mpr (List.mem_flatten.mpr hex))]
  refine ⟨hmain, ?_, ?_⟩
  · intro hall
    obtain ⟨d0, hd0⟩ := List.exists_mem_of_ne_nil documents hN
    have hval := hmain ⟨d0, hd0, hall d0 hd0⟩
    rw [alookupD, hval, Option.getD_some]
    have hdf : docFreq documents w = documents.length := by
      rw [docFreq, List.countP_eq_length]
      intro d hd
      exact decide_eq_true (hall d hd)
    rw [hdf]
    apply Real.log_nonpos
    · positivity
    · rw [div_le_one (by positivity)]
      linarith
  · intro hnone
    rw [hidf, hform, if_neg]
    intro hmem
    obtain ⟨d, hd, hwd⟩ := List.mem_flatten.mp ((dedupFirst_mem _ _).mp hmem)
    exact hnone d hd hwd

/-- Witness for C3 at a concrete corpus: "alpha" occurs in every
document and gets a non-positive IDF; "zeta" occurs nowhere and is
absent from the mapping. -/
theorem claim_C3_witness :
    alookupD (compute_idf [["alpha", "beta"], ["alpha"]]) "alpha" 0 ≤ 0
    ∧ alookup (compute_idf [["alpha", "beta"], ["alpha"]]) "zeta" = none :=
  ⟨(claim_C3 [["alpha", "beta"], ["alpha"]] (by decide) "alpha").2.1 (by decide),
   (claim_C3 [["alpha", "beta"], ["alpha"]] (by decide) "zeta").2.2 (by decide)⟩

/-! ### C4 — order restoration in `summarize_section` -/

lemma scoredAux_pairwise (l : List String) (idf : List (String × ℝ)) :
    ∀ i : ℕ, (scoredAux idf i l).Pairwise (fun a b => a.2.1 < b.2.1) := by
  induction l with
  | nil => intro i; simp [scoredAux]
  | cons sent rest ih =>
    intro i
    by_cases htok : tokenize sent = []
    · simpa [scoredAux, htok] using ih (i + 1)
    · simp only [scoredAux, htok, if_neg, not_false_iff]
      refine List.Pairwise.cons (fun y hy => ?_) (ih (i + 1))
      have := (scoredAux_mem rest idf (i + 1) y hy).1
      show i < y.2.1
      omega

lemma score_sentences_nodup_idx (sentences : List String) (idf : List (String × ℝ)) :
    ((score_sentences sentences idf).map (fun x => x.2.1)).Nodup := by
  have hnd : ((scoredAux idf 0 sentences).map (fun x => x.2.1)).Nodup := by
    rw [List.Nodup, List.pairwise_map]
    exact (scoredAux_pairwise sentences idf 0).imp (fun h => Nat.ne_of_lt h)
  have hperm := (List.mergeSort_perm (scoredAux idf 0 sentences)
    (fun x y => decide (y.1 ≤ x.1))).map (fun x => x.2.1)
  rw [score_sentences, sortByScoreDesc]
  exact (List.Perm.nodup_iff hperm).mpr hnd

/-- C4: the summary sentences of a section carry strictly increasing
original indices: the top-scoring selected triples, re-sorted ascending
by original index, have a strictly increasing index sequence, and
`summarize_section` returns exactly their sentence components, each of
which sits at its recorded index in the section's sentence list. -/
theorem claim_C4 (sec : PaperSection) (idf : List (String × ℝ)) (m : ℕ) :
    List.Sorted (fun a b => a < b)
      ((sortByIndex ((score_sentences sec.sentences idf).take m)).map (fun x => x.2.1))
    ∧ summarize_section sec idf m =
        (if sec.sentences = [] then []
         else (sortByIndex ((score_sentences sec.sentences idf).take m)).map (fun x => x.2.2))
    ∧ List.Forall (fun x => sec.sentences[x.2.1]? = some x.2.2)
        (sortByIndex ((score_sentences sec.sentences idf).take m)) := by
  refine ⟨?_, rfl, ?_⟩
  · have hs := @List.sorted_mergeSort (ℝ × ℕ × String)
      (fun x y => decide (x.2.1 ≤ y.2.1))
      (fun a b c hab hbc => by
        simp only [decide_eq_true_eq] at *
        omega)
      (fun a b => by
        simp only [Bool.or_eq_true, decide_eq_true_eq]
        omega)
      ((score_sentences sec.sentences idf).take m)
    have hle : (sortByIndex ((score_sentences sec.sentences idf).take m)).Pairwise
        (fun a b => a.2.1 ≤ b.2.1) := hs.imp (fun h => of_decide_eq_true h)
    have htake : (((score_sentences sec.sentences idf).take m).map (fun x => x.2.1)).Nodup := by
      rw [List.map_take]
      exact (List.take_sublist m _).nodup (score_sentences_nodup_idx sec.sentences idf)
    have hnd : ((sortByIndex ((score_sentences sec.sentences idf).take m)).map
        (fun x => x.2.1)).Nodup :=
      (List.Perm.nodup_iff ((List.mergeSort_perm ((score_sentences sec.sentences idf).take m)
        (fun x y => decide (x.2.1 ≤ y.2.1))).map (fun x => x.2.1))).mpr htake
    rw [List.Nodup, List.pairwise_map] at hnd
    rw [List.Sorted, List.pairwise_map]
    exact (hle.and hnd).imp (fun h => lt_of_le_of_ne h.1 h.2)
  · rw [List.forall_iff_forall_mem]
    intro x hx
    have hx1 : x ∈ (score_sentences sec.sentences idf).take m :=
      (List.mergeSort_perm _ _).subset hx
    have hx2 : x ∈ score_sentences sec.sentences idf := List.take_subset m _ hx1
    have hx3 : x ∈ scoredAux idf 0 sec.sentences := (List.mergeSort_perm _ _).subset hx2
    have := (scoredAux_mem sec.sentences idf 0 x hx3).2.1
    simpa using this

/-! ### C5 — skip-set enforcement -/

lemma buildSections_summary (lines : List String) :
    ∀ (bs : List (ℕ × String)), ∀ s ∈ buildSections lines bs, s.summary_sentences = [] := by
  intro bs
  induction bs with
  | nil => intro s hs; simp [buildSections] at hs
  | cons b rest ih =>
    intro s hs
    obtain ⟨k, name⟩ := b
    simp only [buildSections, List.mem_cons] at hs
    rcases hs with rfl | hs
    · rfl
    · exact ih s hs

lemma detect_sections_summary (raw_text : String) :
    ∀ s ∈ detect_sections raw_text, s.summary_sentences = [] := by
  intro s hs
  simp only [detect_sections] at hs
  rcases h : sectionBreaks (splitLinesStr raw_text) with - | ⟨b, bs⟩
  · rw [h] at hs
    simp only [List.mem_singleton] at hs
    subst hs
    rfl
  · rw [h] at hs
    exact buildSections_summary _ _ s hs

/-- C5: in a full analysis run, every section whose canonical name is in
the skip set keeps an empty `summary_sentences`, regardless of the
`sentences_per_section` value. -/
theorem claim_C5 (pdf_path raw_text : String) (total_pages sps nk : ℕ) :
    ∀ sec ∈ (analyze_paper pdf_path raw_text total_pages sps nk).sections,
      sec.name ∈ SKIP_SECTIONS → sec.summary_sentences = [] := by
  intro sec hsec hskip
  simp only [analyze_paper] at hsec
  obtain ⟨s0, hs0, rfl⟩ := List.mem_map.mp hsec
  by_cases hname : s0.name ∈ SKIP_SECTIONS
  · simp only [hname, if_pos]
    exact detect_sections_summary raw_text s0 hs0
  · simp only [hname, if_neg, not_false_iff] at hskip

/-- Witness for C5: a concrete run on a paper consisting of a
References section; the section appears in the analysis output with an
empty summary. -/
theorem claim_C5_witness :
    (⟨"References", ["References", "Smith et al 2020 wonderful paper"],
       ["References Smith et al 2020 wonderful paper"], []⟩ : PaperSection) ∈
      (analyze_paper "p.pdf" "References\nSmith et al 2020 wonderful paper" 1 3 10).sections
    ∧ (⟨"References", ["References", "Smith et al 2020 wonderful paper"],
        ["References Smith et al 2020 wonderful paper"], []⟩ : PaperSection).summary_sentences =
        [] :=
  ⟨by decide,
   claim_C5 "p.pdf" "References\nSmith et al 2020 wonderful paper" 1 3 10 _ (by decide)
     (by decide)⟩

/-! ### C2 — the section partition invariant -/

lemma sectionBreaksAux_lb (lines : List String) :
    ∀ (i : ℕ) (x : ℕ × String), x ∈ sectionBreaksAux i lines → i ≤ x.1 := by
  induction lines with
  | nil => intro i x hx; simp [sectionBreaksAux] at hx
  | cons line rest ih =>
    intro i x hx
    simp only [sectionBreaksAux] at hx
    rcases h : headingOf line with - | name
    · rw [h] at hx
      have := ih (i + 1) x hx
      omega
    · rw [h] at hx
      rcases List.mem_cons.mp hx with rfl | hx
      · simp
      · have := ih (i + 1) x hx
        omega

lemma sectionBreaksAux_pairwise (lines : List String) :
    ∀ i : ℕ, (sectionBreaksAux i lines).Pairwise (fun a b => a.1 < b.1) := by
  induction lines with
  | nil => intro i; simp [sectionBreaksAux]
  | cons line rest ih =>
    intro i
    simp only [sectionBreaksAux]
    rcases h : headingOf line with - | name
    · exact ih (i + 1)
    · refine List.Pairwise.cons (fun y hy => ?_) (ih (i + 1))
      have := sectionBreaksAux_lb rest (i + 1) y hy
      show i < y.1
      omega

lemma buildSections_cons (lines : List String) (k : ℕ) (name : String) (k2 : ℕ) (n2 : String)
    (bs : List (ℕ × String)) :
    buildSections lines ((k, name) :: (k2, n2) :: bs) =
      { name := name, text := sliceLines lines k k2,
        sentences := split_sentences (joinLines (sliceLines lines k k2)),
        summary_sentences := [] } :: buildSections lines ((k2, n2) :: bs) := rfl

lemma buildSections_text_flatten (lines : List String) :
    ∀ (bs : List (ℕ × String)) (k : ℕ) (name : String),
      ((k, name) :: bs).Pairwise (fun a b => a.1 < b.1) →
      ((buildSections lines ((k, name) :: bs)).map PaperSection.text).flatten =
        lines.drop k := by
  intro bs
  induction bs with
  | nil =>
    intro k name _
    simp [buildSections, sliceLines, List.take_length]
  | cons b2 bs ih =>
    intro k name hp
    obtain ⟨k2, n2⟩ := b2
    have hk : k < k2 := (List.pairwise_cons.mp hp).1 (k2, n2) (by simp)
    have hp2 := (List.pairwise_cons.mp hp).2
    have htail := ih k2 n2 hp2
    rw [buildSections_cons, List.map_cons, List.flatten_cons]
    rw [htail, sliceLines, List.drop_take]
    have h2 : lines.drop k2 = (lines.drop k).drop (k2 - k) := by
      rw [List.drop_drop]
      congr 1
      omega
    rw [h2, List.take_append_drop]

/-- C2 (amended): if at least one heading line is detected,
concatenating the line slices of all emitted sections in order
reproduces the original line sequence from the first detected heading
line to the end (the lines before the first heading are not included in
any section); when no heading is detected, exactly one section named
"Full Text" covers the whole text. -/
theorem claim_C2 (raw_text : String) :
    (sectionBreaks (splitLinesStr raw_text) = [] →
      detect_sections raw_text =
        [{ name := "Full Text", text := splitLinesStr raw_text,
           sentences := split_sentences (joinLines (splitLinesStr raw_text)),
           summary_sentences := [] }])
    ∧ ∀ (k : ℕ) (name : String) (rest : List (ℕ × String)),
        sectionBreaks (splitLinesStr raw_text) = (k, name) :: rest →
        ((detect_sections raw_text).map PaperSection.text).flatten =
          (splitLinesStr raw_text).drop k := by
  constructor
  · intro h
    simp only [detect_sections, h]
  · intro k name rest h
    simp only [detect_sections, h]
    apply buildSections_text_flatten
    rw [← h]
    exact sectionBreaksAux_pairwise _ 0

/-- Counterexample for C2 as stated: with front matter before the first
heading, a heading is detected yet the concatenation of the sections'
lines is not the original line sequence (the title line is dropped). -/
theorem claim_C2_counterexample :
    sectionBreaks
        (splitLinesStr "An interesting paper title\nAbstract\nWe studied many things carefully.")
      ≠ []
    ∧ ((detect_sections
          "An interesting paper title\nAbstract\nWe studied many things carefully.").map
        PaperSection.text).flatten ≠
      splitLinesStr "An interesting paper title\nAbstract\nWe studied many things carefully." := by
  constructor
  · decide
  · decide

/-- Witness for C2 (amended) at concrete inputs: a text whose first
line is a heading is partitioned exactly, and a heading-free text
yields the single Full Text section. -/
theorem claim_C2_witness :
    ((detect_sections "Abstract\nWe studied many things carefully.").map
        PaperSection.text).flatten =
      (splitLinesStr "Abstract\nWe studied many things carefully.").drop 0
    ∧ detect_sections "plain text with no headings" =
      [{ name := "Full Text", text := splitLinesStr "plain text with no headings",
         sentences := split_sentences (joinLines (splitLinesStr "plain text with no headings")),
         summary_sentences := [] }] :=
  ⟨(claim_C2 "Abstract\nWe studied many things carefully.").2 0 "Abstract" [] (by decide),
   (claim_C2 "plain text with no headings").1 (by decide)⟩

/-! ### C8 — title estimation -/

/-- Title estimation as the claim states it: scan the first 15
*non-empty* lines of the whole text (rather than the non-empty ones
among the first 15 raw lines), stop at the first heading-like line,
keep at most 3 candidates longer than 10 characters from before the
stop point and return the first; fall back to the first non-empty line,
then to the unknown-title sentinel. -/
def estimateTitleClaimed (raw_text : String) : String :=
  let lines := (((splitLinesStr raw_text).map stripStr).filter (fun l => l ≠ "")).take 15
  match lines with
  | [] => "(タイトル不明)"
  | l0 :: _ =>
    match ((lines.takeWhile (fun l => !isHeadingLine l)).filter
        (fun l => 10 < l.length)).take 3 with
    | c :: _ => c
    | [] => l0

/-- Title estimation as the code has it, in the claim's phrasing: the
same procedure over the non-empty stripped lines *among the first 15
raw lines* of the text. -/
def estimateTitleAmended (raw_text : String) : String :=
  let lines := (((splitLinesStr raw_text).take 15).map stripStr).filter (fun l => l ≠ "")
  match lines with
  | [] => "(タイトル不明)"
  | l0 :: _ =>
    match ((lines.takeWhile (fun l => !isHeadingLine l)).filter
        (fun l => 10 < l.length)).take 3 with
    | c :: _ => c
    | [] => l0

/-- The candidate-collecting loop computes exactly: candidates = the
lines before the first heading-like line, filtered to length > 10,
capped at `3 - |acc|` more entries. -/
lemma collectCands_eq (L : List String) :
    ∀ acc : List String, acc.length < 3 →
      collectCands acc L =
        acc ++ ((L.takeWhile (fun l => !isHeadingLine l)).filter
          (fun l => decide (10 < l.length))).take (3 - acc.length) := by
  induction L with
  | nil => intro acc hacc; simp [collectCands]
  | cons line rest ih =>
    intro acc hacc
    cases hfp : isHeadingLine line with
    | true => simp [collectCands, hfp, List.takeWhile_cons]
    | false =>
      by_cases hlen : 10 < line.length
      · by_cases h3 : 3 ≤ acc.length + 1
        · have h31 : 3 - acc.length = 1 := by omega
          have hcc : collectCands acc (line :: rest) = acc ++ [line] := by
            simp only [collectCands, hfp, Bool.false_eq_true, if_neg, not_false_iff,
              hlen, if_pos]
            rw [if_pos (by simp; omega)]
          rw [hcc, h31]
          simp [List.takeWhile_cons, hfp, hlen]
        · have hstep : collectCands acc (line :: rest) = collectCands (acc ++ [line]) rest := by
            simp only [collectCands, hfp, Bool.false_eq_true, if_neg, not_false_iff,
              hlen, if_pos]
            rw [if_neg (by simp; omega)]
          rw [hstep, ih (acc ++ [line]) (by simp; omega)]
          have h4 : 3 - acc.length = (3 - (acc.length + 1)) + 1 := by omega
          simp only [List.takeWhile_cons, hfp, Bool.not_false, if_pos, List.filter_cons,
            List.length_append, List.length_singleton, h4]
          rw [show (decide (10 < line.length)) = true from decide_eq_true hlen]
          simp [List.take_succ_cons, List.append_assoc]
      · have hstep : collectCands acc (line :: rest) = collectCands acc rest := by
          simp only [collectCands, hfp, Bool.false_eq_true, if_neg, not_false_iff, hlen]
          rw [if_neg (by omega)]
        rw [hstep, ih acc hacc]
        simp [List.takeWhile_cons, hfp, List.filter_cons, hlen]

/-- C8 (amended): title estimation scans the non-empty (stripped) lines
among the first 15 raw lines of the text, stops at the first line
matching a section-heading pattern, keeps at most 3 candidate lines
longer than 10 characters from before the stop point, and returns the
first candidate; with no candidates it returns the first such line, and
with no such lines the unknown-title sentinel. -/
theorem claim_C8 (raw_text : String) :
    estimate_title raw_text = estimateTitleAmended raw_text := by
  simp only [estimate_title, estimateTitleAmended]
  cases h : (((splitLinesStr raw_text).take 15).map stripStr).filter (fun l => l ≠ "") with
  | nil => rfl
  | cons l0 ls =>
    have hcc := collectCands_eq (l0 :: ls) [] (by simp)
    simp only [List.nil_append, List.length_nil, Nat.sub_zero] at hcc
    rw [hcc]

/-- Counterexample for C8 as stated: with 14 empty lines before a short
line and a long line, the code scans only the first 15 raw lines and
falls back to the short line, while the claimed procedure (first 15
non-empty lines) would return the long line. -/
theorem claim_C8_counterexample :
    estimate_title "\n\n\n\n\n\n\n\n\n\n\n\n\n\nx\nThis is the actual long paper title" = "x"
    ∧ estimateTitleClaimed
        "\n\n\n\n\n\n\n\n\n\n\n\n\n\nx\nThis is the actual long paper title" =
      "This is the actual long paper title"
    ∧ estimate_title "\n\n\n\n\n\n\n\n\n\n\n\n\n\nx\nThis is the actual long paper title" ≠
      estimateTitleClaimed "\n\n\n\n\n\n\n\n\n\n\n\n\n\nx\nThis is the actual long paper title" := by
  refine ⟨by decide, by decide, by decide⟩

/-! ### C1 — pattern ordering and shadowing

Character-class facts and head-character observations about the
matchers, used to show that on any line matched by the
`results and discussion` pattern the first five patterns fail and the
generic `results` pattern succeeds. -/

lemma isSpaceChar_iff (d : Char) :
    isSpaceChar d = true ↔ ((9 ≤ d.toNat ∧ d.toNat ≤ 13) ∨ d.toNat = 32) := by
  simp [isSpaceChar]

lemma isDigitChar_iff (c : Char) : isDigitChar c = true ↔ (48 ≤ c.toNat ∧ c.toNat ≤ 57) := by
  simp [isDigitChar]

lemma isWordChar_iff (c : Char) :
    isWordChar c = true ↔
      ((48 ≤ c.toNat ∧ c.toNat ≤ 57) ∨ (65 ≤ c.toNat ∧ c.toNat ≤ 90) ∨
       (97 ≤ c.toNat ∧ c.toNat ≤ 122) ∨ c.toNat = 95) := by
  simp [isWordChar]
  tauto

lemma lowerNat_of_digit (c : Char) (h : isDigitChar c = true) :
    lowerNat c = c.toNat ∧ 48 ≤ c.toNat ∧ c.toNat ≤ 57 := by
  have h1 := (isDigitChar_iff c).mp h
  exact ⟨if_neg (by omega), h1⟩

lemma space_lowerNat (d : Char) (h : isSpaceChar d = true) :
    lowerNat d = d.toNat ∧ ((9 ≤ d.toNat ∧ d.toNat ≤ 13) ∨ d.toNat = 32) := by
  have h1 := (isSpaceChar_iff d).mp h
  exact ⟨if_neg (by omega), h1⟩

lemma space_not_word (d : Char) (h : isSpaceChar d = true) : isWordChar d = false := by
  have h1 := (isSpaceChar_iff d).mp h
  cases hw : isWordChar d with
  | false => rfl
  | true =>
    have h2 := (isWordChar_iff d).mp hw
    omega

lemma orElse_isSome {α : Type} (a b : Option α) : (a <|> b).isSome = (a.isSome || b.isSome) := by
  cases a <;> rfl

lemma litGo_none_head (p : Char) (ps : List Char) (c : Char) (rest : List Char)
    (h : lowerNat c ≠ p.toNat) : litGo (p :: ps) (c :: rest) = none := by
  simp [litGo, h]

lemma litGo_some_head (p : Char) (ps : List Char) (cs : List Char)
    (h : (litGo (p :: ps) cs).isSome = true) :
    ∃ c rest, cs = c :: rest ∧ lowerNat c = p.toNat := by
  cases cs with
  | nil => simp [litGo] at h
  | cons c rest =>
    by_cases hc : lowerNat c = p.toNat
    · exact ⟨c, rest, rfl, hc⟩
    · simp [litGo, hc] at h

lemma mNumPre_some_head (line s' : List Char) (h : mNumPre line = some s') :
    ∃ c rest, line = c :: rest ∧ isDigitChar c = true := by
  cases line with
  | nil => simp [mNumPre] at h
  | cons c rest =>
    cases hd : isDigitChar c with
    | false => simp [mNumPre, hd] at h
    | true => exact ⟨c, rest, rfl, hd⟩

lemma mWS1_isSome (k : Matcher) (cs : List Char) (h : (mWS1 k cs).isSome = true) :
    ∃ e rest2, cs = e :: rest2 ∧ isSpaceChar e = true := by
  cases cs with
  | nil => simp [mWS1] at h
  | cons e rest2 =>
    cases hsp : isSpaceChar e with
    | false => simp [mWS1, hsp] at h
    | true => exact ⟨e, rest2, rfl, hsp⟩

lemma mOptChar_cons_eq (c d : Char) (k : Matcher) (rest : List Char)
    (h : lowerNat d = c.toNat) :
    mOptChar c k (d :: rest) = ((k rest) <|> (k (d :: rest))) := by
  simp [mOptChar, h]

lemma mOptChar_cons_ne (c d : Char) (k : Matcher) (rest : List Char)
    (h : lowerNat d ≠ c.toNat) :
    mOptChar c k (d :: rest) = k (d :: rest) := by
  simp [mOptChar, h]

lemma mWB_of_space (e : Char) (rest2 : List Char) (h : isSpaceChar e = true) :
    mWB (e :: rest2) = some (e :: rest2) := by
  simp [mWB, space_not_word e h]

/-- Wherever the `s?` of `results?` is followed by `\s+ ...`, a
successful match forces a following whitespace character, so following
it by `\b` instead also succeeds: the generic `results?\b` body matches
whenever the `results?\s+and\s+discussion\b` body does. -/
lemma bodyResults_of_bodyRAD (cs : List Char)
    (h : (bodyResultsAndDiscussion cs).isSome = true) :
    (bodyResults cs).isSome = true := by
  rw [bodyResultsAndDiscussion, mLit] at h
  rw [bodyResults, mLit]
  cases hlit : litGo "result".data cs with
  | none => rw [hlit] at h; simp at h
  | some s1 =>
    rw [hlit] at h
    simp only [Option.some_bind] at h ⊢
    cases s1 with
    | nil => simp [mOptChar, mWS1] at h
    | cons d rest =>
      by_cases hd : lowerNat d = ('s').toNat
      · rw [mOptChar_cons_eq 's' d _ rest hd] at h
        have hdrest : mWS1 (mLit "and" (mWS1 (mLit "discussion" mWB))) (d :: rest) = none := by
          have hns : isSpaceChar d = false := by
            cases hsp : isSpaceChar d with
            | false => rfl
            | true =>
              have h1 := space_lowerNat d hsp
              have h2 : ('s').toNat = 115 := rfl
              omega
          simp [mWS1, hns]
        rw [orElse_isSome, hdrest, Option.isSome_none, Bool.or_false] at h
        obtain ⟨e, rest2, rfl, hsp⟩ := mWS1_isSome _ rest h
        rw [mOptChar_cons_eq 's' d mWB (e :: rest2) hd, mWB_of_space e rest2 hsp]
        rfl
      · rw [mOptChar_cons_ne 's' d _ rest hd] at h
        obtain ⟨e, rest2, heq, hsp⟩ := mWS1_isSome _ (d :: rest) h
        have he1 : d = e := (List.cons.injEq d rest e rest2 ▸ heq).1
        rw [heq, mOptChar_cons_ne 's' e mWB rest2 (he1 ▸ hd), mWB_of_space e rest2 hsp]
        rfl

lemma mLit_none_head (s : String) (p : Char) (ps : List Char) (k : Matcher) (c : Char)
    (rest : List Char) (hs : s.data = p :: ps) (h : lowerNat c ≠ p.toNat) :
    mLit s k (c :: rest) = none := by
  rw [mLit, hs, litGo_none_head p ps c rest h]
  rfl

lemma bodyAbstract_none (c : Char) (rest : List Char) (h : lowerNat c ≠ 97) :
    bodyAbstract (c :: rest) = none := by
  rw [bodyAbstract]
  exact mLit_none_head _ 'a' "bstract".data _ c rest (by decide)
    (by rw [show ('a').toNat = 97 from rfl]; exact h)

lemma bodyIntroduction_none (c : Char) (rest : List Char) (h : lowerNat c ≠ 105) :
    bodyIntroduction (c :: rest) = none := by
  rw [bodyIntroduction]
  exact mLit_none_head _ 'i' "ntroduction".data _ c rest (by decide)
    (by rw [show ('i').toNat = 105 from rfl]; exact h)

lemma bodyBackground_none (c : Char) (rest : List Char) (h : lowerNat c ≠ 98) :
    bodyBackground (c :: rest) = none := by
  rw [bodyBackground]
  exact mLit_none_head _ 'b' "ackground".data _ c rest (by decide)
    (by rw [show ('b').toNat = 98 from rfl]; exact h)

lemma bodyExperimental_none (c : Char) (rest : List Char) (h : lowerNat c ≠ 101) :
    bodyExperimental (c :: rest) = none := by
  rw [bodyExperimental]
  exact mLit_none_head _ 'e' "xperimental".data _ c rest (by decide)
    (by rw [show ('e').toNat = 101 from rfl]; exact h)

lemma bodyMethods_none (c : Char) (rest : List Char) (h : lowerNat c ≠ 109) :
    bodyMethods (c :: rest) = none := by
  have hA : mLit "material" (mOptChar 's' (mWS1 (mLit "and" (mWS1 mId)))) (c :: rest) = none :=
    mLit_none_head _ 'm' "aterial".data _ c rest (by decide)
      (by rw [show ('m').toNat = 109 from rfl]; exact h)
  have hB : mLit "method" (mOptChar 's' mWB) (c :: rest) = none :=
    mLit_none_head _ 'm' "ethod".data _ c rest (by decide)
      (by rw [show ('m').toNat = 109 from rfl]; exact h)
  simp only [bodyMethods, mOptSeq, hA, hB]
  rfl

lemma bodyRAD_none (c : Char) (rest : List Char) (h : lowerNat c ≠ 114) :
    bodyResultsAndDiscussion (c :: rest) = none := by
  rw [bodyResultsAndDiscussion]
  exact mLit_none_head _ 'r' "esult".data _ c rest (by decide)
    (by rw [show ('r').toNat = 114 from rfl]; exact h)

lemma mkHeadPat_none (body : Matcher) (line : List Char)
    (h1 : ∀ s', mNumPre line = some s' → body s' = none)
    (h2 : body line = none) : mkHeadPat body line = none := by
  simp only [mkHeadPat]
  cases hnp : mNumPre line with
  | none => simp [h2]
  | some s' => simp [h1 s' hnp, h2]

/-- If the five patterns before the generic `results?` all fail on a
line and `results?` succeeds, the first-match-wins scan returns
"Results". -/
lemma firstPatternName_of_results (line : List Char)
    (h6 : (mkHeadPat bodyResults line).isSome = true)
    (h1 : mkHeadPat bodyAbstract line = none)
    (h2 : mkHeadPat bodyIntroduction line = none)
    (h3 : mkHeadPat bodyBackground line = none)
    (h4 : mkHeadPat bodyMethods line = none)
    (h5 : mkHeadPat bodyExperimental line = none) :
    firstPatternName line = some "Results" := by
  rw [firstPatternName, SECTION_PATTERNS]
  simp [List.findSome?_cons, h1, h2, h3, h4, h5, h6]

/-- A successful `results?\s+and\s+discussion` body match forces the
first input character to be `r`/`R`. -/
lemma bodyRAD_head (cs : List Char) (h : (bodyResultsAndDiscussion cs).isSome = true) :
    ∃ c rest, cs = c :: rest ∧ lowerNat c = 114 := by
  rw [bodyResultsAndDiscussion, mLit] at h
  cases hlit : litGo "result".data cs with
  | none => rw [hlit] at h; simp at h
  | some s1 =>
    have : (litGo "result".data cs).isSome = true := by rw [hlit]; rfl
    rw [show "result".data = 'r' :: ['e', 's', 'u', 'l', 't'] from by decide] at this
    obtain ⟨c, rest, rfl, hc⟩ := litGo_some_head _ _ _ this
    exact ⟨c, rest, rfl, by rw [hc]; rfl⟩

/-- C1 (amended): every input line matched by the (shadowed)
`results?\s+and\s+discussion` pattern is also matched by the generic
`results?` pattern, and the first-match-wins scan over
`SECTION_PATTERNS` assigns it the canonical name "Results" — not
"Results and Discussion" — because in the source list the generic
pattern precedes the specific one, which is unreachable. -/
theorem claim_C1 (line : List Char)
    (h : (mkHeadPat bodyResultsAndDiscussion line).isSome = true) :
    (mkHeadPat bodyResults line).isSome = true
    ∧ firstPatternName line = some "Results" := by
  cases hnp : mNumPre line with
  | none =>
    have hb : (bodyResultsAndDiscussion line).isSome = true := by
      simp only [mkHeadPat, hnp, Option.none_bind, Option.none_orElse] at h
      exact h
    obtain ⟨c, rest, rfl, hc⟩ := bodyRAD_head line hb
    have hres : (bodyResults (c :: rest)).isSome = true := bodyResults_of_bodyRAD _ hb
    have hvac : ∀ s', mNumPre (c :: rest) = some s' →
        ∀ body : Matcher, body s' = none := by
      intro s' hs'
      rw [hnp] at hs'
      cases hs'
    have h6 : (mkHeadPat bodyResults (c :: rest)).isSome = true := by
      simp only [mkHeadPat, hnp, Option.none_bind, Option.none_orElse]
      exact hres
    refine ⟨h6, firstPatternName_of_results _ h6 ?_ ?_ ?_ ?_ ?_⟩
    · exact mkHeadPat_none _ _ (fun s' hs' => hvac s' hs' _)
        (bodyAbstract_none c rest (by omega))
    · exact mkHeadPat_none _ _ (fun s' hs' => hvac s' hs' _)
        (bodyIntroduction_none c rest (by omega))
    · exact mkHeadPat_none _ _ (fun s' hs' => hvac s' hs' _)
        (bodyBackground_none c rest (by omega))
    · exact mkHeadPat_none _ _ (fun s' hs' => hvac s' hs' _)
        (bodyMethods_none c rest (by omega))
    · exact mkHeadPat_none _ _ (fun s' hs' => hvac s' hs' _)
        (bodyExperimental_none c rest (by omega))
  | some s' =>
    obtain ⟨c, rest, rfl, hdig⟩ := mNumPre_some_head line s' hnp
    obtain ⟨hlc, hd1, hd2⟩ := lowerNat_of_digit c hdig
    have hbline : bodyResultsAndDiscussion (c :: rest) = none :=
      bodyRAD_none c rest (by omega)
    have hb : (bodyResultsAndDiscussion s').isSome = true := by
      simp only [mkHeadPat, hnp, Option.some_bind, orElse_isSome, hbline,
        Option.isSome_none, Bool.or_false] at h
      exact h
    have hress' : (bodyResults s').isSome = true := bodyResults_of_bodyRAD _ hb
    obtain ⟨c', rest', hs'eq, hc'⟩ := bodyRAD_head s' hb
    have hnum : ∀ s'', mNumPre (c :: rest) = some s'' → s'' = c' :: rest' := by
      intro s'' hs''
      rw [hnp] at hs''
      have h9 : s' = s'' := Option.some.injEq s' s'' ▸ hs''
      rw [← h9, hs'eq]
    have h6 : (mkHeadPat bodyResults (c :: rest)).isSome = true := by
      simp only [mkHeadPat, hnp, Option.some_bind, orElse_isSome]
      rw [hress', Bool.true_or]
    refine ⟨h6, firstPatternName_of_results _ h6 ?_ ?_ ?_ ?_ ?_⟩
    · exact mkHeadPat_none _ _
        (fun s'' hs'' => by rw [hnum s'' hs'']; exact bodyAbstract_none c' rest' (by omega))
        (bodyAbstract_none c rest (by omega))
    · exact mkHeadPat_none _ _
        (fun s'' hs'' => by rw [hnum s'' hs'']; exact bodyIntroduction_none c' rest' (by omega))
        (bodyIntroduction_none c rest (by omega))
    · exact mkHeadPat_none _ _
        (fun s'' hs'' => by rw [hnum s'' hs'']; exact bodyBackground_none c' rest' (by omega))
        (bodyBackground_none c rest (by omega))
    · exact mkHeadPat_none _ _
        (fun s'' hs'' => by rw [hnum s'' hs'']; exact bodyMethods_none c' rest' (by omega))
        (bodyMethods_none c rest (by omega))
    · exact mkHeadPat_none _ _
        (fun s'' hs'' => by rw [hnum s'' hs'']; exact bodyExperimental_none c' rest' (by omega))
        (bodyExperimental_none c rest (by omega))

/-- Counterexample for C1 as stated: the line "Results and Discussion"
matches both the specific and the generic pattern, yet the
first-match-wins scan assigns it "Results", not the specific canonical
name "Results and Discussion" — in the source list the generic pattern
comes first. -/
theorem claim_C1_counterexample :
    (mkHeadPat bodyResultsAndDiscussion "Results and Discussion".data).isSome = true
    ∧ (mkHeadPat bodyResults "Results and Discussion".data).isSome = true
    ∧ firstPatternName "Results and Discussion".data ≠ some "Results and Discussion"
    ∧ firstPatternName "Results and Discussion".data = some "Results" := by
  exact ⟨by decide, by decide, by decide, by decide⟩

/-- Witness for C1 (amended) at the line "Results and Discussion". -/
theorem claim_C1_witness :
    (mkHeadPat bodyResults "Results and Discussion".data).isSome = true
    ∧ firstPatternName "Results and Discussion".data = some "Results" :=
  claim_C1 "Results and Discussion".data (by decide)
